import Mathlib

/-!
Shallow embedding of the cznic/memory allocator (src/memory.go together with
the later variant of the same file in src/unnamed/part_001, which adds the
registry `regs`, `Close` and the empty-input guard in `Free`; the two variants
agree on every function both contain except that guard).

Modelling conventions:
* Numeric constants are fixed at their values for the linux/amd64 build of the
  source: `pageSize = 1 <<< 20` (src/mmap_unix.go), `osPageSize = 4096`,
  `unsafe.Sizeof(page{}) = 32` (four 8-byte fields), hence `headerSize = 32`.
* Addresses and sizes are `Nat`; the Go counters (`allocs`, `bytes`, `mmaps`)
  are `Int` because `Free` decrements them without any check, and `page.used`
  is `Int` for the same reason.
* The Go arrays `cap [64]int`, `lists [64]*node`, `pages [64]*page` and the
  registry of live mappings are modelled as association lists with the usual
  lookup-first semantics; absent entry = zero value (0, nil list, nil page).
* The per-class intrusive doubly-linked free list of the source is modelled as
  the list of node addresses in list order; pushing a node at the head is
  `cons`, popping the head is `tail`, and the pointer surgery of the drain
  loop in `Free` (cases on `n.prev`/`n.next`) is `List.erase` of that node's
  address, which is what the surgery computes whenever the node is actually
  linked in the list (invariant I5 of the spec guarantees this at drain time).
* Byte memory is an association list address ↦ byte with default 0; anonymous
  mmap zeroes its range, which the model reflects by clearing the range on
  map.  The bytes that the Go code writes into freed slots (the `node`
  prev/next fields) are not tracked: all claims only read live regions.
* The VM primitive is an oracle passed to each operation: `MmapOracle` maps
  the current registry to the base address of the next mapping or an OS error
  code, `UnmapOracle` maps a base address to an optional unmap error code.
* Go panics and undefined behaviour (dereferencing a page header that is not
  mapped) are modelled as `none` results.
-/

namespace Memory

/-- mallocAllign constant from memory.go (minimum alignment, must be ≥ 16). -/
def mallocAllign : Nat := 16

/-- OS page size on linux/amd64, the value of os.Getpagesize(). -/
def osPageSize : Nat := 4096

/-- Allocator page size from src/mmap_unix.go: `var pageSize = 1 << 20`. -/
def pageSize : Nat := 1 <<< 20

/-- roundup from memory.go: `(n + m - 1) &^ (m - 1)`; for a power-of-two `m`
this equals rounding up to the next multiple of `m`, which is how it is
written here on `Nat`. -/
def roundup (n m : Nat) : Nat := (n + m - 1) / m * m

/-- Size of the Go struct `page{brk int; log uint; size int; used int}` on a
64-bit target: four 8-byte fields. -/
def sizeofPage : Nat := 32

/-- headerSize from memory.go: `roundup(int(unsafe.Sizeof(page{})), mallocAllign)`. -/
def headerSize : Nat := roundup sizeofPage mallocAllign

/-- pageAvail from memory.go: `pageSize - headerSize`. -/
def pageAvail : Nat := pageSize - headerSize

/-- maxSlotSize from memory.go: `pageAvail >> 1`. -/
def maxSlotSize : Nat := pageAvail >>> 1

/-- pageMask from memory.go: `pageSize - 1`. -/
def pageMask : Nat := pageSize - 1

/-- Address of the owning page header: the Go code computes
`addr &^ uintptr(pageMask)`; since `pageSize` is a power of two this equals
clearing the low bits, written on `Nat` as subtracting the remainder. -/
def pageBase (a : Nat) : Nat := a - a % pageSize

/-- Helper for bitLen: structural recursion on a fuel argument so that the
function evaluates by kernel reduction; the first argument only needs to be
at least the bit count of the second. -/
def bitLenAux : Nat → Nat → Nat
  | 0, _ => 0
  | fuel + 1, n => if n = 0 then 0 else bitLenAux fuel (n / 2) + 1

/-- mathutil.BitLen: number of bits in the binary representation, 0 for 0. -/
def bitLen (n : Nat) : Nat := bitLenAux n n

/-- The size-class exponent computed by Malloc:
`uint(mathutil.BitLen(roundup(size, mallocAllign) - 1))`. -/
def mallocLog (size : Nat) : Nat := bitLen (roundup size mallocAllign - 1)

/-- Page header, the Go struct `page`.  `used` is `Int` because the source
decrements it without a bounds check. -/
structure Page where
  brk : Nat
  log : Nat
  size : Nat
  used : Int
deriving DecidableEq, Repr

/-- A Go byte slice as handed out by the allocator: base address, length and
capacity of the backing region. -/
structure Region where
  addr : Nat
  len : Nat
  cap : Nat
deriving DecidableEq, Repr

/-- The nil slice returned by Malloc(0). -/
def Region.nil : Region := ⟨0, 0, 0⟩

/-- Lookup in an association list (first entry wins). -/
def alookup {α : Type} (l : List (Nat × α)) (k : Nat) : Option α :=
  (l.find? fun kv => kv.1 == k).map fun kv => kv.2

/-- Set a key in an association list: drop the old binding, add the new one. -/
def aset {α : Type} (l : List (Nat × α)) (k : Nat) (v : α) : List (Nat × α) :=
  (k, v) :: l.filter fun kv => kv.1 != k

/-- Delete a key from an association list. -/
def aerase {α : Type} (l : List (Nat × α)) (k : Nat) : List (Nat × α) :=
  l.filter fun kv => kv.1 != k

/-- Read a byte of memory (unwritten mapped memory reads as 0, matching
zero-filled anonymous mappings). -/
def peek (m : List (Nat × Nat)) (a : Nat) : Nat :=
  ((m.find? fun kv => kv.1 == a).map fun kv => kv.2).getD 0

/-- Write a byte of memory. -/
def poke (m : List (Nat × Nat)) (a v : Nat) : List (Nat × Nat) :=
  (a, v) :: m

/-- Zero a freshly mapped range: drop all recorded bytes inside it. -/
def clearRange (m : List (Nat × Nat)) (base len : Nat) : List (Nat × Nat) :=
  m.filter fun kv => !(decide (base ≤ kv.1) && decide (kv.1 < base + len))

/-- Go `copy(dst, src)` of `n` bytes (memmove semantics: all reads from the
snapshot `m`). -/
def copyBytes (m : List (Nat × Nat)) (dst src n : Nat) : List (Nat × Nat) :=
  (List.range n).foldl (fun acc i => poke acc (dst + i) (peek m (src + i))) m

/-- Allocator state, the Go struct `Allocator` of the source (the `heap`
component is the registry `regs` of live mappings together with the page
header stored at offset 0 of each mapping; `mem` is the byte contents of the
mapped memory). -/
structure Allocator where
  allocs : Int
  bytes : Int
  mmaps : Int
  cap : List (Nat × Nat)
  lists : List (Nat × List Nat)
  pages : List (Nat × Nat)
  heap : List (Nat × Page)
  mem : List (Nat × Nat)
deriving DecidableEq, Repr

/-- The zero value of `Allocator`, ready for use. -/
def Allocator.empty : Allocator := ⟨0, 0, 0, [], [], [], [], []⟩

/-- a.cap[log] (0 when never set). -/
def Allocator.capOf (a : Allocator) (log : Nat) : Nat :=
  (alookup a.cap log).getD 0

/-- a.lists[log] as the list of node addresses (empty when nil). -/
def Allocator.listOf (a : Allocator) (log : Nat) : List Nat :=
  (alookup a.lists log).getD []

/-- a.pages[log]: base address of the current bump page, if any. -/
def Allocator.pageOf (a : Allocator) (log : Nat) : Option Nat :=
  alookup a.pages log

/-- The VM map primitive: given the current registry, either the base address
of the next mapping (postcondition of mmap in mmap_unix.go: `pageSize`
aligned) or an OS error code. -/
def MmapOracle : Type := List (Nat × Page) → Except Nat Nat

/-- The VM unmap primitive: optional error code per base address. -/
def UnmapOracle : Type := Nat → Option Nat

/-- Method a.mmap of the later source variant (the inlined equivalent appears
in newPage/newSharedPage of src/memory.go): call the platform mmap, then
`a.mmaps++; a.bytes += len(b); p.size = len(b); a.regs[p] = struct{}{}`.
The platform mmap of mmap_unix.go returns `roundup(size, osPageSize)` bytes
at a `pageSize`-aligned base, zero-filled. -/
def Allocator.mmapGo (O : MmapOracle) (a : Allocator) (size : Nat) :
    Allocator × Except Nat Nat :=
  match O a.heap with
  | .error e => (a, .error e)
  | .ok base =>
    let len := roundup size osPageSize
    ({ a with
        mmaps := a.mmaps + 1
        bytes := a.bytes + (len : Int)
        heap := aset a.heap base { brk := 0, log := 0, size := len, used := 0 }
        mem := clearRange a.mem base len }, .ok base)

/-- newPage from the source: `size += headerSize; a.mmap(size)`; the header
field `log` is left 0 (solo page). -/
def Allocator.newPage (O : MmapOracle) (a : Allocator) (size : Nat) :
    Allocator × Except Nat Nat :=
  a.mmapGo O (size + headerSize)

/-- newSharedPage from the source: lazily cache
`a.cap[log] = pageAvail / (1 << log)`, map
`headerSize + a.cap[log]<<log` bytes, install the page as `a.pages[log]` and
set its header field `log`.  Note the cache write happens before the map
call, exactly as in the source. -/
def Allocator.newSharedPage (O : MmapOracle) (a : Allocator) (log : Nat) :
    Allocator × Except Nat Nat :=
  let a := if a.capOf log = 0 then
      { a with cap := aset a.cap log (pageAvail / (1 <<< log)) } else a
  let size := headerSize + ((a.capOf log) <<< log)
  match a.mmapGo O size with
  | (a1, .error e) => (a1, .error e)
  | (a1, .ok base) =>
    ({ a1 with
        pages := aset a1.pages log base
        heap := match alookup a1.heap base with
          | some p => aset a1.heap base { p with log := log }
          | none => a1.heap }, .ok base)

/-- Method a.unmap of the later source variant:
`delete(a.regs, p); a.mmaps--; unmap(p, p.size)` (the caller adjusts
`a.bytes`). -/
def Allocator.unmapGo (U : UnmapOracle) (a : Allocator) (pb : Nat) :
    Allocator × Option Nat :=
  ({ a with mmaps := a.mmaps - 1, heap := aerase a.heap pb }, U pb)

/-- Free from the source (src/unnamed/part_001 lines 391-447; src/memory.go
lines 102-147 is identical except that it lacks the initial
`if len(b) == 0` guard).  Steps: re-extend the slice to its capacity and
treat an empty slice as a no-op; decrement `allocs`; recover the page header
by masking the address; solo pages are unmapped; otherwise the slot is pushed
at the head of the class free list and `used` is decremented; when `used`
reaches 0 every slot index in `[0, brk)` is unlinked from the free list, the
current-page pointer is cleared if it points here, and the page is unmapped.
`none` models the crash of dereferencing an unmapped header. -/
def Allocator.Free (U : UnmapOracle) (a : Allocator) (b : Region) :
    Option (Allocator × Option Nat) :=
  if b.cap = 0 then some (a, none)
  else
    let a := { a with allocs := a.allocs - 1 }
    let pb := pageBase b.addr
    match alookup a.heap pb with
    | none => none
    | some p =>
      if p.log = 0 then
        some (Allocator.unmapGo U { a with bytes := a.bytes - (p.size : Int) } pb)
      else
        let log := p.log
        let a := { a with lists := aset a.lists log (b.addr :: a.listOf log) }
        let p1 : Page := { p with used := p.used - 1 }
        let a := { a with heap := aset a.heap pb p1 }
        if p1.used ≠ 0 then some (a, none)
        else
          let l := (List.range p1.brk).foldl
            (fun l i => l.erase (pb + headerSize + (i <<< log))) (a.listOf log)
          let a := { a with lists := aset a.lists log l }
          let a := if a.pageOf log = some pb then
              { a with pages := aerase a.pages log } else a
          some (Allocator.unmapGo U { a with bytes := a.bytes - (p1.size : Int) } pb)

/-- Second half of Malloc: serve from the current bump page when present,
else pop the head of the class free list (source lines 496-522).  `none`
models the crashes of a dangling current page, an empty list reached with no
page (impossible after a successful mint) and a node in an unmapped page. -/
def Allocator.mallocSlot (a : Allocator) (log sz : Nat) :
    Option (Allocator × Region × Option Nat) :=
  match a.pageOf log with
  | some pb =>
    match alookup a.heap pb with
    | none => none
    | some p =>
      let r : Region := { addr := pb + headerSize + (p.brk <<< log), len := sz, cap := 1 <<< log }
      let p2 : Page := { p with used := p.used + 1, brk := p.brk + 1 }
      let a2 := { a with heap := aset a.heap pb p2 }
      let a3 := if p2.brk = a2.capOf log then
          { a2 with pages := aerase a2.pages log } else a2
      some (a3, r, none)
  | none =>
    match a.listOf log with
    | [] => none
    | n :: rest =>
      let a2 := { a with lists := aset a.lists log rest }
      match alookup a2.heap (pageBase n) with
      | none => none
      | some p =>
        some ({ a2 with heap := aset a2.heap (pageBase n) { p with used := p.used + 1 } },
          { addr := n, len := sz, cap := 1 <<< log }, none)

/-- Body of Malloc after the sign/zero checks and the `a.allocs++` (source
lines 474-522): compute the class, take the large path when the slot size
exceeds `maxSlotSize`, mint a shared page when both the free list and the
current page are absent, then serve the slot. -/
def Allocator.malloc1 (O : MmapOracle) (a : Allocator) (sz : Nat) :
    Option (Allocator × Region × Option Nat) :=
  let log := mallocLog sz
  if maxSlotSize < 1 <<< log then
    match a.newPage O sz with
    | (a1, .error e) => some (a1, Region.nil, some e)
    | (a1, .ok base) => some (a1, { addr := base + headerSize, len := sz, cap := sz }, none)
  else if a.listOf log = [] ∧ a.pageOf log = none then
    match a.newSharedPage O log with
    | (a1, .error e) => some (a1, Region.nil, some e)
    | (a1, .ok _) => a1.mallocSlot log sz
  else a.mallocSlot log sz

/-- Malloc from the source (lines 456-523): panics (`none`) for negative
size, returns the nil slice for size 0, otherwise increments `allocs` first
and dispatches. -/
def Allocator.Malloc (O : MmapOracle) (a : Allocator) (size : Int) :
    Option (Allocator × Region × Option Nat) :=
  if size < 0 then none
  else if size = 0 then some (a, Region.nil, none)
  else Allocator.malloc1 O { a with allocs := a.allocs + 1 } size.toNat

/-- Calloc from the source: Malloc then zero the `len` bytes of the result. -/
def Allocator.Calloc (O : MmapOracle) (a : Allocator) (size : Int) :
    Option (Allocator × Region × Option Nat) :=
  match a.Malloc O size with
  | none => none
  | some (a1, _, some e) => some (a1, Region.nil, some e)
  | some (a1, r, none) =>
    some ({ a1 with
      mem := (List.range r.len).foldl (fun m i => poke m (r.addr + i) 0) a1.mem }, r, none)

/-- Realloc from the source (lines 535-564): nil-capacity input behaves as
Malloc; size 0 behaves as Free; a size within capacity is served by
reslicing; otherwise Malloc new, `copy(r, b)` (which moves
`min(len(r), len(b))` bytes), Free old, return new together with Free's
error.  A negative size that reaches the reslicing case is the Go panic of a
negative slice bound (`none`). -/
def Allocator.Realloc (O : MmapOracle) (U : UnmapOracle) (a : Allocator)
    (b : Region) (size : Int) : Option (Allocator × Region × Option Nat) :=
  if b.cap = 0 then a.Malloc O size
  else if size = 0 then
    match a.Free U b with
    | none => none
    | some (a1, e) => some (a1, Region.nil, e)
  else if size ≤ (b.cap : Int) then
    if size < 0 then none
    else some (a, { addr := b.addr, len := size.toNat, cap := b.cap }, none)
  else
    match a.Malloc O size with
    | none => none
    | some (a1, _, some e) => some (a1, Region.nil, some e)
    | some (a1, r, none) =>
      let a2 := { a1 with mem := copyBytes a1.mem r.addr b.addr (min r.len b.len) }
      match a2.Free U b with
      | none => none
      | some (a3, e) => some (a3, r, e)

/-- Close from src/unnamed/part_001 lines 379-387: unmap every mapping in the
registry, remembering the first error and continuing, then reset the
allocator to its zero value (`*a = Allocator{}`). -/
def Allocator.Close (U : UnmapOracle) (a : Allocator) : Allocator × Option Nat :=
  let err := a.heap.foldl
    (fun acc bp => match acc with
      | some e => some e
      | none => U bp.1) none
  (Allocator.empty, err)

/-- UsableSize from the source: 0 for nil, else recover the page header from
the address; `1 << log` for a shared page, `size - headerSize` for a solo
page.  `none` models the crash of reading an unmapped header. -/
def UsableSize (a : Allocator) (p : Option Nat) : Option Nat :=
  match p with
  | none => some 0
  | some x =>
    match alookup a.heap (pageBase x) with
    | none => none
    | some pg => some (if pg.log ≠ 0 then 1 <<< pg.log else pg.size - headerSize)

/-- The caller writing one byte into a region it owns (the allocator is not
involved; only the mapped memory changes). -/
def Allocator.store (a : Allocator) (addr v : Nat) : Allocator :=
  { a with mem := poke a.mem addr v }

end Memory

namespace Memory

/-! ### Arithmetic facts about roundup, bitLen and the size class -/

theorem one_shl (k : Nat) : 1 <<< k = 2 ^ k := by
  rw [Nat.shiftLeft_eq, one_mul]

theorem le_roundup (n m : Nat) (hm : 0 < m) : n ≤ roundup n m := by
  have h1 : (n + m - 1) % m < m := Nat.mod_lt _ hm
  have h3 := Nat.div_add_mod' (n + m - 1) m
  unfold roundup
  generalize (n + m - 1) / m * m = A at h3 ⊢
  omega

theorem lt_two_pow_bitLenAux : ∀ (fuel n : Nat), n ≤ fuel → n < 2 ^ bitLenAux fuel n := by
  intro fuel
  induction fuel with
  | zero =>
    intro n h
    have : n = 0 := by omega
    subst this
    decide
  | succ fuel ih =>
    intro n h
    unfold bitLenAux
    by_cases h0 : n = 0
    · subst h0
      simp
    · rw [if_neg h0]
      have ih2 := ih (n / 2) (by omega)
      rw [pow_succ]
      omega

theorem lt_two_pow_bitLen (n : Nat) : n < 2 ^ bitLen n :=
  lt_two_pow_bitLenAux n n (Nat.le_refl n)

theorem bitLenAux_le : ∀ (fuel n k : Nat), n ≤ fuel → n < 2 ^ k → bitLenAux fuel n ≤ k := by
  intro fuel
  induction fuel with
  | zero =>
    intro n k h hk
    exact Nat.zero_le k
  | succ fuel ih =>
    intro n k h hk
    unfold bitLenAux
    by_cases h0 : n = 0
    · rw [if_pos h0]
      exact Nat.zero_le k
    · rw [if_neg h0]
      cases k with
      | zero =>
        exact absurd hk (by omega)
      | succ k =>
        have hk2 : n / 2 < 2 ^ k := by
          rw [pow_succ] at hk
          omega
        have := ih (n / 2) k (by omega) hk2
        omega

theorem bitLen_le_of_lt_two_pow {n k : Nat} (h : n < 2 ^ k) : bitLen n ≤ k :=
  bitLenAux_le n n k (Nat.le_refl n) h

theorem bitLen_le_iff {n k : Nat} : bitLen n ≤ k ↔ n < 2 ^ k := by
  constructor
  · intro h
    exact lt_of_lt_of_le (lt_two_pow_bitLen n) (Nat.pow_le_pow_right (by norm_num) h)
  · exact bitLen_le_of_lt_two_pow

theorem roundup_pos {sz : Nat} (h : 0 < sz) : 16 ≤ roundup sz mallocAllign := by
  unfold roundup mallocAllign
  have h1 : 1 ≤ (sz + 16 - 1) / 16 := by
    rw [Nat.le_div_iff_mul_le (by norm_num)]
    omega
  omega

theorem le_two_pow_mallocLog {sz : Nat} (h : 0 < sz) : sz ≤ 2 ^ mallocLog sz := by
  have h1 : sz ≤ roundup sz mallocAllign := le_roundup sz mallocAllign (by norm_num [mallocAllign])
  have h2 : roundup sz mallocAllign - 1 < 2 ^ mallocLog sz := lt_two_pow_bitLen _
  have h3 := roundup_pos h
  omega

theorem roundup_le_two_pow_mallocLog {sz : Nat} : roundup sz mallocAllign ≤ 2 ^ mallocLog sz + 1 := by
  have h2 : roundup sz mallocAllign - 1 < 2 ^ mallocLog sz := lt_two_pow_bitLen _
  omega

theorem mallocLog_le_iff {sz k : Nat} (h : 0 < sz) :
    mallocLog sz ≤ k ↔ roundup sz mallocAllign ≤ 2 ^ k := by
  unfold mallocLog
  rw [bitLen_le_iff]
  have h3 := roundup_pos h
  omega

theorem mallocLog_ge_four {sz : Nat} (h : 0 < sz) : 4 ≤ mallocLog sz := by
  by_contra hc
  have h4 : mallocLog sz ≤ 3 := by omega
  have := (mallocLog_le_iff h).mp h4
  have h3 := roundup_pos h
  norm_num at this
  omega

/-! ### Association list lemmas -/

theorem alookup_aset_self {α : Type} (l : List (Nat × α)) (k : Nat) (v : α) :
    alookup (aset l k v) k = some v := by
  simp [alookup, aset]

theorem alookup_filter_ne {α : Type} (l : List (Nat × α)) (k k2 : Nat) (h : k2 ≠ k) :
    alookup (l.filter fun kv => kv.1 != k) k2 = alookup l k2 := by
  induction l with
  | nil => rfl
  | cons kv t ih =>
    rw [List.filter_cons]
    by_cases hk : kv.1 = k
    · have hp : (kv.1 != k) = false := by simp [hk]
      rw [hp]
      simp only [Bool.false_eq_true, if_false]
      rw [ih]
      unfold alookup
      rw [List.find?_cons]
      have hne : (kv.1 == k2) = false := by simp [hk, Ne.symm h]
      rw [hne]
    · have hp : (kv.1 != k) = true := by simp [hk]
      rw [hp]
      simp only [if_true]
      unfold alookup
      rw [List.find?_cons, List.find?_cons]
      cases h2 : (kv.1 == k2) with
      | true => rfl
      | false => exact ih

theorem alookup_aset_ne {α : Type} (l : List (Nat × α)) (k : Nat) (v : α) (k2 : Nat)
    (h : k2 ≠ k) : alookup (aset l k v) k2 = alookup l k2 := by
  unfold aset
  have hne : (k == k2) = false := by simp [Ne.symm h]
  simp only [alookup, List.find?_cons, hne]
  exact alookup_filter_ne l k k2 h

theorem alookup_aerase_self {α : Type} (l : List (Nat × α)) (k : Nat) :
    alookup (aerase l k) k = none := by
  unfold aerase alookup
  have hnone : (List.filter (fun kv => kv.1 != k) l).find? (fun kv => kv.1 == k) = none := by
    rw [List.find?_eq_none]
    intro kv hm
    have := (List.mem_filter.mp hm).2
    simp_all
  rw [hnone]
  rfl

theorem alookup_aerase_ne {α : Type} (l : List (Nat × α)) (k k2 : Nat) (h : k2 ≠ k) :
    alookup (aerase l k) k2 = alookup l k2 :=
  alookup_filter_ne l k k2 h

theorem alookup_mem {α : Type} {l : List (Nat × α)} {k : Nat} {v : α}
    (h : alookup l k = some v) : (k, v) ∈ l := by
  unfold alookup at h
  cases hf : l.find? fun kv => kv.1 == k with
  | none => rw [hf] at h; simp at h
  | some kv =>
    have hm := List.mem_of_find?_eq_some hf
    have hp := List.find?_some hf
    rw [hf] at h
    simp at h hp
    obtain ⟨k1, v1⟩ := kv
    simp at h hp
    rw [hp, h] at hm
    exact hm

theorem alookup_eq_of_mem {α : Type} {l : List (Nat × α)}
    (hnd : (l.map Prod.fst).Nodup) {k : Nat} {v : α} (hm : (k, v) ∈ l) :
    alookup l k = some v := by
  induction l with
  | nil => exact absurd hm (List.not_mem_nil _)
  | cons kv t ih =>
    simp only [List.map_cons, List.nodup_cons] at hnd
    cases List.mem_cons.mp hm with
    | inl h =>
      subst h
      simp [alookup]
    | inr h =>
      by_cases hk : kv.1 = k
      · exact absurd (List.mem_map.mpr ⟨(k, v), h, rfl⟩) (hk ▸ hnd.1)
      · have hne : (kv.1 == k) = false := by simp [hk]
        unfold alookup
        rw [List.find?_cons, hne]
        exact ih hnd.2 h

theorem isSome_alookup_aset {α : Type} (l : List (Nat × α)) (k : Nat) (v : α) (k2 : Nat)
    (h : (alookup l k2).isSome) : (alookup (aset l k v) k2).isSome := by
  by_cases hk : k2 = k
  · subst hk; rw [alookup_aset_self]; rfl
  · rwa [alookup_aset_ne _ _ _ _ hk]

theorem aset_aset {α : Type} (l : List (Nat × α)) (k : Nat) (v w : α) :
    aset (aset l k v) k w = aset l k w := by
  unfold aset
  simp [List.filter_cons, List.filter_filter]

theorem aerase_aset {α : Type} (l : List (Nat × α)) (k : Nat) (v : α) :
    aerase (aset l k v) k = aerase l k := by
  unfold aerase aset
  simp [List.filter_cons, List.filter_filter]

end Memory

namespace Memory

/-! ### Page base arithmetic -/

theorem pageBase_add {pb off : Nat} (hpb : pb % pageSize = 0) (hoff : off < pageSize) :
    pageBase (pb + off) = pb := by
  obtain ⟨q, hq⟩ : ∃ q, pb = pageSize * q :=
    ⟨pb / pageSize, by
      have := Nat.div_add_mod pb pageSize
      omega⟩
  subst hq
  unfold pageBase
  rw [Nat.add_comm, Nat.add_mul_mod_self_left, Nat.mod_eq_of_lt hoff]
  omega

end Memory

namespace Memory

/-! ### Folded erasure (the drain loop of Free) -/

theorem mem_foldl_erase {f : Nat → Nat} :
    ∀ (is : List Nat) (l : List Nat) (x : Nat),
      x ∈ is.foldl (fun acc i => acc.erase (f i)) l → x ∈ l := by
  intro is
  induction is with
  | nil => intro l x h; exact h
  | cons i t ih =>
    intro l x h
    exact List.erase_subset (f i) l (ih _ _ h)

theorem not_mem_foldl_erase {f : Nat → Nat} :
    ∀ (is : List Nat) (l : List Nat) (x : Nat),
      l.count x ≤ 1 → (∃ i ∈ is, f i = x) →
      x ∉ is.foldl (fun acc i => acc.erase (f i)) l := by
  intro is
  induction is with
  | nil =>
    rintro l x hc ⟨i, hi, hfi⟩ hmem
    exact absurd hi (List.not_mem_nil i)
  | cons i t ih =>
    rintro l x hc ⟨j, hj, hfj⟩ hmem
    rw [List.foldl_cons] at hmem
    by_cases hfi : f i = x
    · have h0 : (l.erase (f i)).count x = 0 := by
        rw [hfi, List.count_erase_self]
        omega
      have hx : x ∉ l.erase (f i) := by
        rw [← List.count_eq_zero]
        exact h0
      exact hx (mem_foldl_erase t _ x hmem)
    · have hc2 : (l.erase (f i)).count x ≤ 1 := by
        rw [List.count_erase_of_ne (fun hxx => hfi hxx.symm)]
        exact hc
      have hj2 : j ∈ t := by
        cases List.mem_cons.mp hj with
        | inl hh => exact absurd (hh ▸ hfj) hfi
        | inr hh => exact hh
      exact ih _ _ hc2 ⟨j, hj2, hfj⟩ hmem

/-! ### Byte memory -/

theorem peek_poke_self (m : List (Nat × Nat)) (a v : Nat) : peek (poke m a v) a = v := by
  simp [peek, poke]

theorem peek_poke_ne (m : List (Nat × Nat)) (a v x : Nat) (h : x ≠ a) :
    peek (poke m a v) x = peek m x := by
  have hne : (a == x) = false := by simp [Ne.symm h]
  simp only [peek, poke, List.find?_cons, hne]

theorem copyBytes_zero (m : List (Nat × Nat)) (dst src : Nat) :
    copyBytes m dst src 0 = m := rfl

theorem copyBytes_succ (m : List (Nat × Nat)) (dst src n : Nat) :
    copyBytes m dst src (n + 1) =
      poke (copyBytes m dst src n) (dst + n) (peek m (src + n)) := by
  unfold copyBytes
  rw [List.range_succ, List.foldl_append]
  rfl

theorem peek_copyBytes (m : List (Nat × Nat)) (dst src : Nat) :
    ∀ (n i : Nat), i < n → peek (copyBytes m dst src n) (dst + i) = peek m (src + i) := by
  intro n
  induction n with
  | zero => intro i h; omega
  | succ n ih =>
    intro i h
    rw [copyBytes_succ]
    by_cases hi : i = n
    · subst hi
      rw [peek_poke_self]
    · rw [peek_poke_ne _ _ _ _ (by omega)]
      exact ih i (by omega)

end Memory

namespace Memory

/-! ### Unfolding equations for Free -/

theorem Free_emptyRegion (U : UnmapOracle) (a : Allocator) (b : Region)
    (hcap : b.cap = 0) : a.Free U b = some (a, none) := by
  unfold Allocator.Free
  rw [if_pos hcap]

theorem Free_solo (U : UnmapOracle) (a : Allocator) (b : Region) (pb : Nat) (p : Page)
    (hcap : b.cap ≠ 0) (hpb : pageBase b.addr = pb)
    (hheap : alookup a.heap pb = some p) (hlog : p.log = 0) :
    a.Free U b = some
      ({ a with allocs := a.allocs - 1, bytes := a.bytes - (p.size : Int),
                mmaps := a.mmaps - 1, heap := aerase a.heap pb }, U pb) := by
  unfold Allocator.Free Allocator.unmapGo
  rw [if_neg hcap]
  dsimp only
  rw [hpb, hheap]
  dsimp only
  rw [if_pos hlog]

theorem Free_push (U : UnmapOracle) (a : Allocator) (b : Region) (pb : Nat) (p : Page)
    (hcap : b.cap ≠ 0) (hpb : pageBase b.addr = pb)
    (hheap : alookup a.heap pb = some p)
    (hlog : p.log ≠ 0) (hused : p.used - 1 ≠ 0) :
    a.Free U b = some
      ({ a with allocs := a.allocs - 1,
                lists := aset a.lists p.log (b.addr :: a.listOf p.log),
                heap := aset a.heap pb { p with used := p.used - 1 } }, none) := by
  unfold Allocator.Free
  rw [if_neg hcap]
  dsimp only
  rw [hpb, hheap]
  dsimp only
  rw [if_neg hlog, if_pos hused]
  rfl

theorem Free_drain (U : UnmapOracle) (a : Allocator) (b : Region) (pb : Nat) (p : Page)
    (hcap : b.cap ≠ 0) (hpb : pageBase b.addr = pb)
    (hheap : alookup a.heap pb = some p)
    (hlog : p.log ≠ 0) (hused : p.used = 1) :
    a.Free U b = some
      ({ a with allocs := a.allocs - 1,
                bytes := a.bytes - (p.size : Int),
                mmaps := a.mmaps - 1,
                lists := aset a.lists p.log
                  ((List.range p.brk).foldl
                    (fun l i => l.erase (pb + headerSize + (i <<< p.log)))
                    (b.addr :: a.listOf p.log)),
                pages := if alookup a.pages p.log = some pb then aerase a.pages p.log
                  else a.pages,
                heap := aerase a.heap pb }, U pb) := by
  unfold Allocator.Free Allocator.unmapGo
  rw [if_neg hcap]
  dsimp only
  rw [hpb, hheap]
  dsimp only
  rw [if_neg hlog]
  have h0 : ¬ ({ p with used := p.used - 1 } : Page).used ≠ 0 := by
    dsimp only
    omega
  rw [if_neg h0]
  dsimp only [Allocator.listOf, Allocator.pageOf]
  rw [alookup_aset_self]
  by_cases hpg : alookup a.pages p.log = some pb
  · rw [if_pos hpg, if_pos hpg]
    dsimp only
    rw [aset_aset, aerase_aset]
    rfl
  · rw [if_neg hpg, if_neg hpg]
    dsimp only
    rw [aset_aset, aerase_aset]
    rfl

theorem Free_mem (U : UnmapOracle) (a : Allocator) (b : Region)
    (res : Allocator × Option Nat) (h : a.Free U b = some res) : res.1.mem = a.mem := by
  unfold Allocator.Free Allocator.unmapGo at h
  split at h
  · cases h; rfl
  · dsimp only at h
    split at h
    · exact absurd h (by simp)
    · split at h
      · cases h; rfl
      · split at h
        · cases h; rfl
        · split at h <;> (cases h; rfl)

end Memory

namespace Memory

/-! ### Unfolding equations for Malloc -/

theorem Malloc_neg (O : MmapOracle) (a : Allocator) (size : Int) (h : size < 0) :
    a.Malloc O size = none := by
  unfold Allocator.Malloc
  rw [if_pos h]

theorem Malloc_zero (O : MmapOracle) (a : Allocator) :
    a.Malloc O 0 = some (a, Region.nil, none) := rfl

theorem Malloc_pos (O : MmapOracle) (a : Allocator) (size : Int) (h : 0 < size) :
    a.Malloc O size = Allocator.malloc1 O { a with allocs := a.allocs + 1 } size.toNat := by
  unfold Allocator.Malloc
  rw [if_neg (by omega), if_neg (by omega)]

theorem malloc1_large (O : MmapOracle) (a : Allocator) (sz base : Nat)
    (hlarge : maxSlotSize < 1 <<< mallocLog sz) (hO : O a.heap = .ok base) :
    a.malloc1 O sz = some
      ({ a with mmaps := a.mmaps + 1,
                bytes := a.bytes + (roundup (sz + headerSize) osPageSize : Int),
                heap := aset a.heap base ⟨0, 0, roundup (sz + headerSize) osPageSize, 0⟩,
                mem := clearRange a.mem base (roundup (sz + headerSize) osPageSize) },
       ⟨base + headerSize, sz, sz⟩, none) := by
  unfold Allocator.malloc1 Allocator.newPage Allocator.mmapGo
  rw [if_pos hlarge, hO]

theorem malloc1_large_fail (O : MmapOracle) (a : Allocator) (sz e : Nat)
    (hlarge : maxSlotSize < 1 <<< mallocLog sz) (hO : O a.heap = .error e) :
    a.malloc1 O sz = some (a, Region.nil, some e) := by
  unfold Allocator.malloc1 Allocator.newPage Allocator.mmapGo
  rw [if_pos hlarge, hO]

end Memory

namespace Memory

theorem malloc1_mint_fresh (O : MmapOracle) (a : Allocator) (sz base : Nat)
    (hshared : ¬ maxSlotSize < 1 <<< mallocLog sz)
    (hlist : a.listOf (mallocLog sz) = [])
    (hpage : a.pageOf (mallocLog sz) = none)
    (hO : O a.heap = .ok base)
    (h0 : a.capOf (mallocLog sz) = 0)
    (hc1 : pageAvail / (1 <<< mallocLog sz) ≠ 1) :
    a.malloc1 O sz = some
      ({ a with
          mmaps := a.mmaps + 1
          bytes := a.bytes +
            (roundup (headerSize + ((pageAvail / (1 <<< mallocLog sz)) <<< mallocLog sz))
              osPageSize : Int)
          cap := aset a.cap (mallocLog sz) (pageAvail / (1 <<< mallocLog sz))
          pages := aset a.pages (mallocLog sz) base
          heap := aset a.heap base
            ⟨1, mallocLog sz,
              roundup (headerSize + ((pageAvail / (1 <<< mallocLog sz)) <<< mallocLog sz))
                osPageSize, 1⟩
          mem := clearRange a.mem base
            (roundup (headerSize + ((pageAvail / (1 <<< mallocLog sz)) <<< mallocLog sz))
              osPageSize) },
       ⟨base + headerSize, sz, 1 <<< mallocLog sz⟩, none) := by
  unfold Allocator.malloc1
  rw [if_neg hshared, if_pos (And.intro hlist hpage)]
  unfold Allocator.newSharedPage Allocator.mmapGo
  rw [if_pos h0]
  dsimp only
  rw [hO]
  dsimp only
  simp only [Allocator.capOf, alookup_aset_self, Option.getD_some]
  unfold Allocator.mallocSlot
  simp only [Allocator.pageOf, Allocator.capOf, alookup_aset_self, aset_aset,
    Option.getD_some]
  rw [if_neg (by omega)]
  simp [aset_aset, Nat.zero_shiftLeft]

end Memory

namespace Memory

theorem malloc1_mint_cached (O : MmapOracle) (a : Allocator) (sz base : Nat)
    (hshared : ¬ maxSlotSize < 1 <<< mallocLog sz)
    (hlist : a.listOf (mallocLog sz) = [])
    (hpage : a.pageOf (mallocLog sz) = none)
    (hO : O a.heap = .ok base)
    (h0 : a.capOf (mallocLog sz) ≠ 0)
    (hc1 : a.capOf (mallocLog sz) ≠ 1) :
    a.malloc1 O sz = some
      ({ a with
          mmaps := a.mmaps + 1
          bytes := a.bytes +
            (roundup (headerSize + ((a.capOf (mallocLog sz)) <<< mallocLog sz))
              osPageSize : Int)
          pages := aset a.pages (mallocLog sz) base
          heap := aset a.heap base
            ⟨1, mallocLog sz,
              roundup (headerSize + ((a.capOf (mallocLog sz)) <<< mallocLog sz))
                osPageSize, 1⟩
          mem := clearRange a.mem base
            (roundup (headerSize + ((a.capOf (mallocLog sz)) <<< mallocLog sz))
              osPageSize) },
       ⟨base + headerSize, sz, 1 <<< mallocLog sz⟩, none) := by
  unfold Allocator.malloc1
  rw [if_neg hshared, if_pos (And.intro hlist hpage)]
  unfold Allocator.newSharedPage Allocator.mmapGo
  rw [if_neg h0]
  dsimp only
  rw [hO]
  dsimp only
  simp only [alookup_aset_self, aset_aset]
  unfold Allocator.mallocSlot
  simp only [Allocator.pageOf, Allocator.capOf, alookup_aset_self, aset_aset,
    Option.getD_some]
  rw [if_neg (by
    intro h1
    exact hc1 (by
      unfold Allocator.capOf at *
      omega))]
  simp [aset_aset, Nat.zero_shiftLeft]

theorem malloc1_mint_fail (O : MmapOracle) (a : Allocator) (sz e : Nat)
    (hshared : ¬ maxSlotSize < 1 <<< mallocLog sz)
    (hlist : a.listOf (mallocLog sz) = [])
    (hpage : a.pageOf (mallocLog sz) = none)
    (hO : O a.heap = .error e) :
    a.malloc1 O sz = some
      ({ a with
          cap := if a.capOf (mallocLog sz) = 0 then
              aset a.cap (mallocLog sz) (pageAvail / (1 <<< mallocLog sz)) else a.cap },
       Region.nil, some e) := by
  unfold Allocator.malloc1
  rw [if_neg hshared, if_pos (And.intro hlist hpage)]
  unfold Allocator.newSharedPage Allocator.mmapGo
  by_cases h0 : a.capOf (mallocLog sz) = 0
  · rw [if_pos h0, if_pos h0]
    dsimp only
    rw [hO]
  · rw [if_neg h0, if_neg h0]
    dsimp only
    rw [hO]

end Memory

namespace Memory

theorem malloc1_bump (O : MmapOracle) (a : Allocator) (sz pb : Nat) (p : Page)
    (hshared : ¬ maxSlotSize < 1 <<< mallocLog sz)
    (hpage : a.pageOf (mallocLog sz) = some pb)
    (hheap : alookup a.heap pb = some p) :
    a.malloc1 O sz = some
      ((if p.brk + 1 = a.capOf (mallocLog sz) then
          { a with heap := aset a.heap pb { p with used := p.used + 1, brk := p.brk + 1 },
                   pages := aerase a.pages (mallocLog sz) }
        else
          { a with heap := aset a.heap pb { p with used := p.used + 1, brk := p.brk + 1 } }),
       ⟨pb + headerSize + (p.brk <<< mallocLog sz), sz, 1 <<< mallocLog sz⟩, none) := by
  unfold Allocator.malloc1
  rw [if_neg hshared, if_neg (by simp [hpage])]
  unfold Allocator.mallocSlot
  rw [hpage]
  dsimp only
  rw [hheap]
  dsimp only
  simp only [Allocator.capOf]

theorem malloc1_pop (O : MmapOracle) (a : Allocator) (sz n : Nat) (rest : List Nat)
    (p : Page)
    (hshared : ¬ maxSlotSize < 1 <<< mallocLog sz)
    (hpage : a.pageOf (mallocLog sz) = none)
    (hlist : a.listOf (mallocLog sz) = n :: rest)
    (hheap : alookup a.heap (pageBase n) = some p) :
    a.malloc1 O sz = some
      ({ a with lists := aset a.lists (mallocLog sz) rest,
                heap := aset a.heap (pageBase n) { p with used := p.used + 1 } },
       ⟨n, sz, 1 <<< mallocLog sz⟩, none) := by
  unfold Allocator.malloc1
  rw [if_neg hshared, if_neg (by simp [hlist])]
  unfold Allocator.mallocSlot
  rw [hpage, hlist]
  dsimp only
  rw [hheap]

end Memory

namespace Memory

theorem mmapGo_heap_mono (O : MmapOracle) (a : Allocator) (sz pb : Nat)
    (hs : (alookup a.heap pb).isSome) :
    (alookup (a.mmapGo O sz).1.heap pb).isSome := by
  unfold Allocator.mmapGo
  cases hO : O a.heap
  · exact hs
  · exact isSome_alookup_aset _ _ _ _ hs

theorem newPage_heap_mono (O : MmapOracle) (a : Allocator) (sz pb : Nat)
    (hs : (alookup a.heap pb).isSome) :
    (alookup (a.newPage O sz).1.heap pb).isSome :=
  mmapGo_heap_mono O a (sz + headerSize) pb hs

theorem newSharedPage_heap_mono (O : MmapOracle) (a : Allocator) (log pb : Nat)
    (hs : (alookup a.heap pb).isSome) :
    (alookup (a.newSharedPage O log).1.heap pb).isSome := by
  unfold Allocator.newSharedPage
  generalize ha2 : (if a.capOf log = 0 then
      { a with cap := aset a.cap log (pageAvail / (1 <<< log)) } else a) = a2
  have hs2 : (alookup a2.heap pb).isSome := by
    rw [← ha2]
    split
    · exact hs
    · exact hs
  have hm := mmapGo_heap_mono O a2 (headerSize + (a2.capOf log <<< log)) pb hs2
  dsimp only
  rcases hmm : a2.mmapGo O (headerSize + (a2.capOf log <<< log)) with ⟨a3, exc⟩
  rw [hmm] at hm
  dsimp only at hm
  cases exc with
  | error e => exact hm
  | ok base =>
    dsimp only at hm ⊢
    cases halk : alookup a3.heap base with
    | none => simp only [halk]; exact hm
    | some p => simp only [halk]; exact isSome_alookup_aset _ _ _ _ hm

theorem mallocSlot_heap_mono (a : Allocator) (log sz : Nat)
    (a1 : Allocator) (r : Region) (e : Option Nat)
    (h : a.mallocSlot log sz = some (a1, r, e)) (pb : Nat)
    (hs : (alookup a.heap pb).isSome) : (alookup a1.heap pb).isSome := by
  unfold Allocator.mallocSlot at h
  cases hpg : a.pageOf log with
  | some pb2 =>
    rw [hpg] at h
    dsimp only at h
    cases hlk : alookup a.heap pb2 with
    | none => rw [hlk] at h; cases h
    | some p =>
      rw [hlk] at h
      dsimp only at h
      split at h <;> (cases h; exact isSome_alookup_aset _ _ _ _ hs)
  | none =>
    rw [hpg] at h
    dsimp only at h
    cases hls : a.listOf log with
    | nil => rw [hls] at h; cases h
    | cons n rest =>
      rw [hls] at h
      dsimp only at h
      cases hlk : alookup a.heap (pageBase n) with
      | none => rw [hlk] at h; cases h
      | some p =>
        rw [hlk] at h
        dsimp only at h
        cases h
        exact isSome_alookup_aset _ _ _ _ hs

theorem malloc1_heap_mono (O : MmapOracle) (a : Allocator) (sz : Nat)
    (a1 : Allocator) (r : Region) (e : Option Nat)
    (h : a.malloc1 O sz = some (a1, r, e)) (pb : Nat)
    (hs : (alookup a.heap pb).isSome) : (alookup a1.heap pb).isSome := by
  unfold Allocator.malloc1 at h
  dsimp only at h
  by_cases hbig : maxSlotSize < 1 <<< mallocLog sz
  · rw [if_pos hbig] at h
    have hm := newPage_heap_mono O a sz pb hs
    rcases hnp : a.newPage O sz with ⟨a2, exc⟩
    rw [hnp] at h hm
    dsimp only at hm
    cases exc <;> (dsimp only at h; cases h; exact hm)
  · rw [if_neg hbig] at h
    by_cases hmint : a.listOf (mallocLog sz) = [] ∧ a.pageOf (mallocLog sz) = none
    · rw [if_pos hmint] at h
      have hm := newSharedPage_heap_mono O a (mallocLog sz) pb hs
      rcases hsp : a.newSharedPage O (mallocLog sz) with ⟨a2, exc⟩
      rw [hsp] at h hm
      dsimp only at hm
      cases exc with
      | error e2 => dsimp only at h; cases h; exact hm
      | ok base =>
        dsimp only at h
        exact mallocSlot_heap_mono a2 (mallocLog sz) sz a1 r e h pb hm
    · rw [if_neg hmint] at h
      exact mallocSlot_heap_mono a (mallocLog sz) sz a1 r e h pb hs

theorem Malloc_heap_mono (O : MmapOracle) (a : Allocator) (size : Int)
    (a1 : Allocator) (r : Region) (e : Option Nat)
    (h : a.Malloc O size = some (a1, r, e)) (pb : Nat)
    (hs : (alookup a.heap pb).isSome) : (alookup a1.heap pb).isSome := by
  rcases lt_trichotomy size 0 with hlt | heq | hgt
  · rw [Malloc_neg O a size hlt] at h
    cases h
  · subst heq
    rw [Malloc_zero] at h
    cases h
    exact hs
  · rw [Malloc_pos O a size hgt] at h
    exact malloc1_heap_mono O _ size.toNat a1 r e h pb hs

end Memory

namespace Memory

/-! ### Reachable-state invariant (the fragment the claims need) -/

/-- IsSlot pb p x: x is a slot address of the shared page with header p mapped
at base pb, carved below the bump index (`x = pb + headerSize + i<<log` with
`i < p.brk`). -/
def IsSlot (pb : Nat) (p : Page) (x : Nat) : Prop :=
  pb + headerSize ≤ x ∧ (x - (pb + headerSize)) % (1 <<< p.log) = 0 ∧
    (x - (pb + headerSize)) / (1 <<< p.log) < p.brk

instance (pb : Nat) (p : Page) (x : Nat) : Decidable (IsSlot pb p x) := by
  unfold IsSlot
  infer_instance

/-- Inv a: the fragment of the reachable-state invariant used by the theorems
below: registry keys are distinct and `pageSize`-aligned; shared pages have
their bump index within the slot capacity; every free-list node of class k is
a carved slot of some mapped class-k page, with no duplicates; the current
page of class k is a mapped, not fully carved class-k page; the slot-count
cache holds `pageAvail >> log` whenever set. -/
def Inv (a : Allocator) : Prop :=
  (a.heap.map Prod.fst).Nodup ∧
  (∀ bp ∈ a.heap, bp.1 % pageSize = 0 ∧
     (bp.2.log ≠ 0 → bp.2.brk ≤ pageAvail / (1 <<< bp.2.log))) ∧
  (∀ e ∈ a.lists, e.2.Nodup ∧
     ∀ x ∈ e.2, ∃ bp ∈ a.heap, bp.2.log = e.1 ∧ e.1 ≠ 0 ∧ IsSlot bp.1 bp.2 x) ∧
  (∀ e ∈ a.pages, ∃ bp ∈ a.heap, bp.1 = e.2 ∧ bp.2.log = e.1 ∧ e.1 ≠ 0 ∧
     bp.2.brk < a.capOf e.1) ∧
  (∀ e ∈ a.cap, e.2 = pageAvail / (1 <<< e.1))

instance (a : Allocator) : Decidable (Inv a) := by
  unfold Inv
  infer_instance

theorem IsSlot.decomp {pb : Nat} {p : Page} {x : Nat} (h : IsSlot pb p x) :
    ∃ i, i < p.brk ∧ x = pb + headerSize + (i <<< p.log) := by
  obtain ⟨h1, h2, h3⟩ := h
  rw [one_shl] at h2 h3
  refine ⟨(x - (pb + headerSize)) / 2 ^ p.log, h3, ?_⟩
  rw [Nat.shiftLeft_eq]
  have hd : 2 ^ p.log ∣ (x - (pb + headerSize)) := Nat.dvd_of_mod_eq_zero h2
  have hc := Nat.div_mul_cancel hd
  omega

theorem slot_offset_lt {p : Page} (hbrk : p.brk ≤ pageAvail / (1 <<< p.log)) {i : Nat}
    (hi : i < p.brk) : headerSize + (i <<< p.log) < pageSize := by
  rw [one_shl] at hbrk
  rw [Nat.shiftLeft_eq]
  have hd : 0 < 2 ^ p.log := Nat.pos_pow_of_pos _ (by norm_num)
  have h1 : (i + 1) * 2 ^ p.log ≤ (pageAvail / 2 ^ p.log) * 2 ^ p.log :=
    Nat.mul_le_mul_right _ (by omega)
  have h2 : (pageAvail / 2 ^ p.log) * 2 ^ p.log ≤ pageAvail := Nat.div_mul_le_self _ _
  have h3 : (i + 1) * 2 ^ p.log = i * 2 ^ p.log + 2 ^ p.log := by ring
  have hps : headerSize + pageAvail = pageSize := by decide
  omega

theorem pageBase_slot {pb : Nat} {p : Page} {x : Nat} (hal : pb % pageSize = 0)
    (hbrk : p.brk ≤ pageAvail / (1 <<< p.log)) (hs : IsSlot pb p x) :
    pageBase x = pb := by
  obtain ⟨i, hi, hx⟩ := IsSlot.decomp hs
  subst hx
  rw [Nat.add_assoc]
  exact pageBase_add hal (slot_offset_lt hbrk hi)

theorem listOf_nodup {a : Allocator} (hInv : Inv a) (L : Nat) :
    (a.listOf L).Nodup := by
  unfold Allocator.listOf
  cases halk : alookup a.lists L with
  | none => exact List.nodup_nil
  | some lst => exact (hInv.2.2.1 (L, lst) (alookup_mem halk)).1

theorem listOf_in_page {a : Allocator} (hInv : Inv a) {L x : Nat}
    (hx : x ∈ a.listOf L) {pb : Nat} {p : Page}
    (hheap : alookup a.heap pb = some p) (hpb : pageBase x = pb) : IsSlot pb p x := by
  unfold Allocator.listOf at hx
  cases halk : alookup a.lists L with
  | none => rw [halk] at hx; exact absurd hx (List.not_mem_nil x)
  | some lst =>
    rw [halk] at hx
    obtain ⟨bp, hbp, hbl, hL0, hsl⟩ := (hInv.2.2.1 (L, lst) (alookup_mem halk)).2 x hx
    have hh := hInv.2.1 bp hbp
    have hbase : pageBase x = bp.1 :=
      pageBase_slot hh.1 (hh.2 (by rw [hbl]; exact hL0)) hsl
    have hbp1 : bp.1 = pb := by rw [← hbase, hpb]
    have : alookup a.heap bp.1 = some bp.2 := alookup_eq_of_mem hInv.1 hbp
    rw [hbp1, hheap] at this
    cases this
    rw [← hbp1]
    exact hsl

end Memory

namespace Memory

/-- C1: for a shared page p of class k, the page is unmapped exactly when a
Free brings its used count to 0: (i) a Free of a live slot of p that drops
`used` to 0 removes p from the registry, leaves no free-list node of class k
pointing into p, clears the current-page pointer of class k if it pointed to
p, and unmaps nothing else; (ii) a Free of a live slot with `used` still
positive afterwards keeps p mapped (only its used count changes); (iii)
Malloc never unmaps any mapped page. -/
theorem claim_C1 :
    (∀ (U : UnmapOracle) (a : Allocator) (b : Region) (pb : Nat) (p : Page),
      Inv a → b.cap ≠ 0 → pageBase b.addr = pb →
      alookup a.heap pb = some p → p.log ≠ 0 → IsSlot pb p b.addr →
      b.addr ∉ a.listOf p.log → p.used = 1 →
      ∃ a3, a.Free U b = some (a3, U pb) ∧
        alookup a3.heap pb = none ∧
        (∀ x ∈ a3.listOf p.log, pageBase x ≠ pb) ∧
        a3.pageOf p.log ≠ some pb ∧
        (∀ pb2, pb2 ≠ pb → (alookup a.heap pb2).isSome →
          (alookup a3.heap pb2).isSome)) ∧
    (∀ (U : UnmapOracle) (a : Allocator) (b : Region) (pb : Nat) (p : Page),
      b.cap ≠ 0 → pageBase b.addr = pb →
      alookup a.heap pb = some p → p.log ≠ 0 → p.used ≠ 1 →
      ∃ a3, a.Free U b = some (a3, none) ∧
        alookup a3.heap pb = some { p with used := p.used - 1 }) ∧
    (∀ (O : MmapOracle) (a : Allocator) (size : Int) (a1 : Allocator) (r : Region)
      (e : Option Nat) (pb : Nat),
      a.Malloc O size = some (a1, r, e) →
      (alookup a.heap pb).isSome → (alookup a1.heap pb).isSome) := by
  refine ⟨?_, ?_, ?_⟩
  · intro U a b pb p hInv hcap hpb hheap hlog hslot hnotin hused
    refine ⟨_, Free_drain U a b pb p hcap hpb hheap hlog hused, ?_, ?_, ?_, ?_⟩
    · exact alookup_aerase_self a.heap pb
    · intro x hx hpbx
      unfold Allocator.listOf at hx
      dsimp only at hx
      rw [alookup_aset_self] at hx
      simp only [Option.getD_some] at hx
      have hmem0 : x ∈ b.addr :: a.listOf p.log := mem_foldl_erase _ _ _ hx
      have hslotx : IsSlot pb p x := by
        cases List.mem_cons.mp hmem0 with
        | inl h => exact h ▸ hslot
        | inr h => exact listOf_in_page hInv h hheap hpbx
      obtain ⟨i, hi, hxeq⟩ := IsSlot.decomp hslotx
      have hnd : (b.addr :: a.listOf p.log).Nodup :=
        List.Nodup.cons hnotin (listOf_nodup hInv p.log)
      have hcnt : (b.addr :: a.listOf p.log).count x ≤ 1 :=
        List.nodup_iff_count_le_one.mp hnd x
      exact not_mem_foldl_erase (List.range p.brk) _ x hcnt
        ⟨i, List.mem_range.mpr hi, hxeq.symm⟩ hx
    · unfold Allocator.pageOf
      dsimp only
      split
      · rw [alookup_aerase_self]
        simp
      · assumption
    · intro pb2 hne hsome
      dsimp only
      rwa [alookup_aerase_ne _ _ _ hne]
  · intro U a b pb p hcap hpb hheap hlog hused
    refine ⟨_, Free_push U a b pb p hcap hpb hheap hlog (by omega), ?_⟩
    dsimp only
    exact alookup_aset_self a.heap pb _
  · intro O a size a1 r e pb hm hs
    exact Malloc_heap_mono O a size a1 r e hm pb hs

end Memory

namespace Memory

/-! ### Concrete oracles and states for witnesses and counterexamples -/

/-- A well-behaved map oracle: fresh, `pageSize`-aligned, nonoverlapping
bases 1·2^20, 2·2^20, ... (one new page per registry entry). -/
def O1 : MmapOracle := fun h => .ok (pageSize * (h.length + 1))

/-- An unmap oracle that always succeeds. -/
def U0 : UnmapOracle := fun _ => none

/-- A map oracle that always fails with OS error 7. -/
def Ofail : MmapOracle := fun _ => .error 7

/-- The state after `Malloc(1)` on the empty allocator under `O1`: one shared
class-4 page at base 2^20, one slot carved and live. -/
def s1c : Allocator :=
  { allocs := 1, bytes := 1048576, mmaps := 1, cap := [(4, 65534)], lists := [],
    pages := [(4, 1048576)], heap := [(1048576, ⟨1, 4, 1048576, 1⟩)], mem := [] }

/-- The state after a second `Malloc(1)`: same page, two slots live. -/
def s2c : Allocator :=
  { allocs := 2, bytes := 1048576, mmaps := 1, cap := [(4, 65534)], lists := [],
    pages := [(4, 1048576)], heap := [(1048576, ⟨2, 4, 1048576, 2⟩)], mem := [] }

theorem s1c_reachable : Allocator.empty.Malloc O1 1 = some (s1c, ⟨1048608, 1, 16⟩, none) := by
  decide

theorem s2c_reachable : s1c.Malloc O1 1 = some (s2c, ⟨1048624, 1, 16⟩, none) := by
  decide

/-- Witness for claim_C1 at the concrete one-page states. -/
theorem claim_C1_witness :
    (∃ a3, s1c.Free U0 ⟨1048608, 1, 16⟩ = some (a3, U0 1048576) ∧
      alookup a3.heap 1048576 = none ∧
      (∀ x ∈ a3.listOf 4, pageBase x ≠ 1048576) ∧
      a3.pageOf 4 ≠ some 1048576 ∧
      (∀ pb2, pb2 ≠ 1048576 → (alookup s1c.heap pb2).isSome →
        (alookup a3.heap pb2).isSome)) ∧
    (∃ a3, s2c.Free U0 ⟨1048608, 1, 16⟩ = some (a3, none) ∧
      alookup a3.heap 1048576 = some ⟨2, 4, 1048576, 1⟩) ∧
    (alookup s2c.heap 1048576).isSome := by
  refine ⟨?_, ?_, ?_⟩
  · exact claim_C1.1 U0 s1c ⟨1048608, 1, 16⟩ 1048576 ⟨1, 4, 1048576, 1⟩
      (by decide) (by decide) (by decide) (by decide) (by decide) (by decide)
      (by decide) (by decide)
  · exact claim_C1.2.1 U0 s2c ⟨1048608, 1, 16⟩ 1048576 ⟨2, 4, 1048576, 2⟩
      (by decide) (by decide) (by decide) (by decide) (by decide)
  · exact claim_C1.2.2 O1 s1c 1 s2c ⟨1048624, 1, 16⟩ none 1048576
      s2c_reachable (by decide)

end Memory

namespace Memory

theorem Free_foreign (U : UnmapOracle) (a : Allocator) (b : Region)
    (hcap : b.cap ≠ 0) (h : alookup a.heap (pageBase b.addr) = none) :
    a.Free U b = none := by
  unfold Allocator.Free
  rw [if_neg hcap]
  dsimp only
  rw [h]

/-- C6: freeing an empty region (zero length and zero capacity, such as the
result of Malloc(0)) is a no-op: Free returns nil and the allocator state —
in particular the three counters — is unchanged; and Malloc(0) indeed
returns the empty region without touching the state. -/
theorem claim_C6 :
    (∀ (U : UnmapOracle) (a : Allocator) (x l : Nat),
      a.Free U ⟨x, l, 0⟩ = some (a, none)) ∧
    (∀ (O : MmapOracle) (a : Allocator),
      a.Malloc O 0 = some (a, Region.nil, none)) := by
  constructor
  · intro U a x l
    exact Free_emptyRegion U a ⟨x, l, 0⟩ rfl
  · intro O a
    exact Malloc_zero O a

/-- Drained state reached by the TestFree scenario: Malloc(1) then
Free(b[:0]). -/
def s1f : Allocator :=
  { allocs := 0, bytes := 0, mmaps := 0, cap := [(4, 65534)], lists := [(4, [])],
    pages := [], heap := [], mem := [] }

/-- C10: Free re-extends its argument to full capacity (b = b[:cap(b)]), so
it depends only on the base address and the capacity, never on the length:
Free(b[:j]) is literally the same computation as Free(b) for every j; in
particular Free(b[:0]) on a slice of nonzero capacity frees the whole
allocation (TestFree: after Malloc(1) and Free(b[:0]) all three counters are
zero again, the page is unmapped). -/
theorem claim_C10 :
    (∀ (U : UnmapOracle) (a : Allocator) (x c l j : Nat),
      a.Free U ⟨x, j, c⟩ = a.Free U ⟨x, l, c⟩) ∧
    (s1c.Free U0 ⟨1048608, 0, 16⟩ = some (s1f, none) ∧
      s1f.allocs = 0 ∧ s1f.mmaps = 0 ∧ s1f.bytes = 0 ∧ s1f.heap = []) := by
  constructor
  · intro U a x c l j
    rfl
  · refine ⟨by decide, rfl, rfl, rfl, rfl⟩

/-- C4: for any region of positive capacity and any size with
0 < size ≤ cap(b), Realloc returns the very same region truncated to the
requested length — same base address, same capacity — and the entire
allocator state, memory contents included, is returned unchanged (no copy
happens). -/
theorem claim_C4 (O : MmapOracle) (U : UnmapOracle) (a : Allocator) (b : Region)
    (size : Int) (hcap : 0 < b.cap) (h1 : 0 < size) (h2 : size ≤ (b.cap : Int)) :
    a.Realloc O U b size = some (a, ⟨b.addr, size.toNat, b.cap⟩, none) := by
  unfold Allocator.Realloc
  rw [if_neg (by omega), if_neg (by omega), if_pos h2, if_neg (by omega)]

/-- Witness for claim_C4: shrinking the live 16-byte slot of s1c to length
10 returns the same slot and leaves the state untouched. -/
theorem claim_C4_witness :
    Allocator.Realloc O1 U0 s1c ⟨1048608, 1, 16⟩ 10 =
      some (s1c, ⟨1048608, 10, 16⟩, none) :=
  claim_C4 O1 U0 s1c ⟨1048608, 1, 16⟩ 10 (by decide) (by decide) (by decide)

theorem Close_foldl_first (U : UnmapOracle) :
    ∀ (l : List (Nat × Page)) (acc : Option Nat),
      l.foldl (fun acc bp => match acc with
        | some e => some e
        | none => U bp.1) acc =
      (match acc with
        | some e => some e
        | none => l.findSome? fun bp => U bp.1) := by
  intro l
  induction l with
  | nil =>
    intro acc
    cases acc <;> simp
  | cons b t ih =>
    intro acc
    rw [List.foldl_cons]
    cases acc with
    | some e =>
      rw [ih]
    | none =>
      rw [ih, List.findSome?_cons]
      cases U b.1 <;> rfl

/-- C9: Close unmaps every mapping in the registry, continuing past unmap
errors and returning the first error encountered in registry order (nil if
none); afterwards the allocator equals its zero value — counters zero, no
mapping owned — and Close on a freshly constructed allocator is a no-op
returning nil. -/
theorem claim_C9 :
    (∀ (U : UnmapOracle) (a : Allocator), (a.Close U).1 = Allocator.empty) ∧
    (∀ (U : UnmapOracle) (a : Allocator),
      (a.Close U).2 = a.heap.findSome? fun bp => U bp.1) ∧
    (∀ (U : UnmapOracle), Allocator.empty.Close U = (Allocator.empty, none)) ∧
    Allocator.empty.allocs = 0 ∧ Allocator.empty.mmaps = 0 ∧
    Allocator.empty.bytes = 0 ∧ Allocator.empty.heap = [] := by
  refine ⟨fun U a => rfl, ?_, fun U => rfl, rfl, rfl, rfl, rfl⟩
  intro U a
  unfold Allocator.Close
  exact Close_foldl_first U a.heap none

/-- C2 (amended): when the VM map primitive fails during Malloc — on the
large path or when minting a new shared page — Malloc returns the error and
the mapping counters (mmaps, bytes), the free lists, the current pages, the
registry and the memory all keep their prior values; however `allocs` has
already been incremented before the map attempt, and on the shared path the
slot-capacity cache of the class may be initialized, so the state is not
entirely unchanged. -/
theorem claim_C2 (O : MmapOracle) (a : Allocator) (size : Int) (e : Nat)
    (h : 0 < size) (hO : O a.heap = .error e) :
    (maxSlotSize < 1 <<< mallocLog size.toNat →
      a.Malloc O size = some ({ a with allocs := a.allocs + 1 }, Region.nil, some e)) ∧
    (¬ maxSlotSize < 1 <<< mallocLog size.toNat →
      a.listOf (mallocLog size.toNat) = [] →
      a.pageOf (mallocLog size.toNat) = none →
      a.Malloc O size = some
        ({ a with allocs := a.allocs + 1,
                  cap := if a.capOf (mallocLog size.toNat) = 0 then
                      aset a.cap (mallocLog size.toNat)
                        (pageAvail / (1 <<< mallocLog size.toNat))
                    else a.cap },
         Region.nil, some e)) := by
  constructor
  · intro hbig
    rw [Malloc_pos O a size h]
    exact malloc1_large_fail O _ size.toNat e hbig hO
  · intro hbig hlist hpage
    rw [Malloc_pos O a size h]
    exact malloc1_mint_fail O _ size.toNat e hbig hlist hpage hO

/-- C2 counterexample: with a failing VM primitive, Malloc(1) on the empty
allocator returns the OS error, but `allocs` has been incremented and the
class-4 capacity cache initialized: the resulting state differs from the
input state, refuting "the allocator state is unchanged: the counters
(liveAllocs/allocs, ...) keep their prior values". -/
theorem claim_C2_counterexample :
    Allocator.empty.Malloc Ofail 1 =
      some ({ Allocator.empty with allocs := 1, cap := [(4, 65534)] },
        Region.nil, some 7) ∧
    ({ Allocator.empty with allocs := 1, cap := [(4, 65534)] } : Allocator) ≠
      Allocator.empty := by
  exact ⟨by decide, by decide⟩

/-- Witness for claim_C2 on the empty allocator. -/
theorem claim_C2_witness :
    Allocator.empty.Malloc Ofail 1 =
      some ({ Allocator.empty with allocs := 1, cap := [(4, 65534)] },
        Region.nil, some 7) :=
  (claim_C2 Ofail Allocator.empty 1 7 (by decide) rfl).2
    (by decide) (by decide) (by decide)

/-- C3 (amended): the boundary between the shared size-class path and the
large path lies at P/4 = 2^18 = 262144 bytes, not at P/2: Malloc's branch
condition `1<<log ≤ maxSlotSize` (shared) holds exactly when the request
rounded up to the 16-byte alignment is at most 2^18, because
maxSlotSize = (P − headerSize) >> 1 = 524272 lies strictly below 2^19, so
the largest admissible class is 2^18; a request rounding to 2^18 + 1 or
more — in particular one of exactly P/2 — takes the large path. -/
theorem claim_C3 (size : Nat) (h : 0 < size) :
    1 <<< mallocLog size ≤ maxSlotSize ↔ roundup size mallocAllign ≤ 262144 := by
  rw [one_shl]
  have h18 : (2:Nat) ^ 18 = 262144 := by norm_num
  constructor
  · intro hle
    have hle18 : mallocLog size ≤ 18 := by
      by_contra hc
      have h19 : (2:Nat) ^ 19 ≤ 2 ^ mallocLog size :=
        Nat.pow_le_pow_right (by norm_num) (by omega)
      have hm : maxSlotSize < 2 ^ 19 := by decide
      omega
    have := (mallocLog_le_iff h).mp hle18
    omega
  · intro hr
    have hle18 : mallocLog size ≤ 18 := (mallocLog_le_iff h).mpr (by omega)
    have h2 : (2:Nat) ^ mallocLog size ≤ 2 ^ 18 :=
      Nat.pow_le_pow_right (by norm_num) hle18
    have h3 : (262144:Nat) ≤ maxSlotSize := by decide
    omega

/-- C3 counterexample: a request of exactly P/2 = 524288 bytes is already
16-aligned, yet Malloc's shared-path condition fails for it
(1 << 19 = 524288 > maxSlotSize = 524272), and running Malloc(P/2) on the
empty allocator mints a SOLO page (header log = 0, region capacity equal to
the byte count, no size-class page), contradicting "served on the shared
size-class path". -/
theorem claim_C3_counterexample :
    roundup 524288 mallocAllign = 524288 ∧
    maxSlotSize < 1 <<< mallocLog 524288 ∧
    Allocator.empty.Malloc O1 524288 =
      some ({ Allocator.empty with allocs := 1, mmaps := 1, bytes := 528384,
                                   heap := [(1048576, ⟨0, 0, 528384, 0⟩)] },
        ⟨1048608, 524288, 524288⟩, none) := by
  exact ⟨by decide, by decide, by decide⟩

/-- Witness for claim_C3 at both sides of the boundary. -/
theorem claim_C3_witness :
    (1 <<< mallocLog 262144 ≤ maxSlotSize ↔ roundup 262144 mallocAllign ≤ 262144) ∧
    (1 <<< mallocLog 262145 ≤ maxSlotSize ↔ roundup 262145 mallocAllign ≤ 262144) :=
  ⟨claim_C3 262144 (by decide), claim_C3 262145 (by decide)⟩

/-- C7 (amended): Malloc panics for every negative size and returns an empty
region with nil error for size 0; but Free applied to a nonempty region that
was not previously returned by this allocator performs no validation and
raises no InvalidArgument error: it masks the address and dereferences the
supposed page header of an unmapped page, which is undefined behaviour
(modelled as a crash, `none`) — the code contains no InvalidArgument error
value at all. -/
theorem claim_C7 :
    (∀ (O : MmapOracle) (a : Allocator) (size : Int), size < 0 →
      a.Malloc O size = none) ∧
    (∀ (O : MmapOracle) (a : Allocator),
      a.Malloc O 0 = some (a, Region.nil, none)) ∧
    (∀ (U : UnmapOracle) (a : Allocator) (b : Region), b.cap ≠ 0 →
      alookup a.heap (pageBase b.addr) = none → a.Free U b = none) := by
  refine ⟨?_, ?_, ?_⟩
  · intro O a size h
    exact Malloc_neg O a size h
  · intro O a
    exact Malloc_zero O a
  · intro U a b hcap h
    exact Free_foreign U a b hcap h

/-- C7 counterexample: the claim says Free of a foreign nonempty region
raises an InvalidArgument error; on the empty allocator, Free of the region
at 1048608 with capacity 16 instead crashes (none) — it does not return any
error value. -/
theorem claim_C7_counterexample :
    Allocator.empty.Free U0 ⟨1048608, 16, 16⟩ = none := by
  decide

/-- Witness for claim_C7: Malloc(-1) panics and Free of a foreign region
crashes, at concrete inputs. -/
theorem claim_C7_witness :
    Allocator.empty.Malloc O1 (-1) = none ∧
    Allocator.empty.Free U0 ⟨2097184, 8, 8⟩ = none :=
  ⟨claim_C7.1 O1 Allocator.empty (-1) (by decide),
   claim_C7.2.2 U0 Allocator.empty ⟨2097184, 8, 8⟩ (by decide) (by decide)⟩

end Memory

namespace Memory

theorem mallocSlot_len (a : Allocator) (log sz : Nat) (a1 : Allocator) (r : Region)
    (e : Option Nat) (h : a.mallocSlot log sz = some (a1, r, e)) : r.len = sz := by
  unfold Allocator.mallocSlot at h
  cases hpg : a.pageOf log with
  | some pb =>
    rw [hpg] at h
    dsimp only at h
    cases hlk : alookup a.heap pb with
    | none => rw [hlk] at h; cases h
    | some p =>
      rw [hlk] at h
      dsimp only at h
      cases h
      rfl
  | none =>
    rw [hpg] at h
    dsimp only at h
    cases hls : a.listOf log with
    | nil => rw [hls] at h; cases h
    | cons n rest =>
      rw [hls] at h
      dsimp only at h
      cases hlk : alookup a.heap (pageBase n) with
      | none => rw [hlk] at h; cases h
      | some p =>
        rw [hlk] at h
        dsimp only at h
        cases h
        rfl

theorem malloc1_len (O : MmapOracle) (a : Allocator) (sz : Nat) (a1 : Allocator)
    (r : Region) (h : a.malloc1 O sz = some (a1, r, none)) : r.len = sz := by
  unfold Allocator.malloc1 at h
  dsimp only at h
  by_cases hbig : maxSlotSize < 1 <<< mallocLog sz
  · rw [if_pos hbig] at h
    rcases hnp : a.newPage O sz with ⟨a2, exc⟩
    rw [hnp] at h
    cases exc with
    | error e2 => dsimp only at h; simp at h
    | ok base => dsimp only at h; cases h; rfl
  · rw [if_neg hbig] at h
    by_cases hmint : a.listOf (mallocLog sz) = [] ∧ a.pageOf (mallocLog sz) = none
    · rw [if_pos hmint] at h
      rcases hsp : a.newSharedPage O (mallocLog sz) with ⟨a2, exc⟩
      rw [hsp] at h
      cases exc with
      | error e2 => dsimp only at h; simp at h
      | ok base =>
        dsimp only at h
        exact mallocSlot_len a2 (mallocLog sz) sz a1 r none h
    · rw [if_neg hmint] at h
      exact mallocSlot_len a (mallocLog sz) sz a1 r none h

theorem Malloc_len (O : MmapOracle) (a : Allocator) (size : Int) (a1 : Allocator)
    (r : Region) (hpos : 0 < size)
    (h : a.Malloc O size = some (a1, r, none)) : r.len = size.toNat := by
  rw [Malloc_pos O a size hpos] at h
  exact malloc1_len O _ size.toNat a1 r h

/-- C5 (amended): for cap(b) > 0 and size > cap(b), Realloc allocates a new
region of size bytes via Malloc, copies min(size, len(b)) bytes — the old
region's LENGTH, not its capacity — from old to new, frees the old region
and returns the new region together with Free's error; consequently the
first min(len(b), size) bytes of the result equal the corresponding prefix
of the old region.  The hypotheses name the Malloc result, require Malloc
not to disturb the old region's bytes (it only zeroes the fresh mapping,
which is disjoint from the live old page in reachable states) and name the
Free result. -/
theorem claim_C5 (O : MmapOracle) (U : UnmapOracle) (a a1 a3 : Allocator)
    (b r : Region) (size : Int) (e3 : Option Nat)
    (hcap : b.cap ≠ 0) (hsz : (b.cap : Int) < size)
    (hm : a.Malloc O size = some (a1, r, none))
    (hf : ({ a1 with mem := copyBytes a1.mem r.addr b.addr (min r.len b.len) }
      : Allocator).Free U b = some (a3, e3))
    (hpres : ∀ i < b.len, peek a1.mem (b.addr + i) = peek a.mem (b.addr + i)) :
    a.Realloc O U b size = some (a3, r, e3) ∧
    a3.mem = copyBytes a1.mem r.addr b.addr (min r.len b.len) ∧
    r.len = size.toNat ∧
    (∀ i, i < min size.toNat b.len →
      peek a3.mem (r.addr + i) = peek a.mem (b.addr + i)) := by
  have hpos : (0:Int) < size := by omega
  have hrlen : r.len = size.toNat := Malloc_len O a size a1 r hpos hm
  have hmem : a3.mem = copyBytes a1.mem r.addr b.addr (min r.len b.len) :=
    Free_mem U _ b (a3, e3) hf
  refine ⟨?_, hmem, hrlen, ?_⟩
  · unfold Allocator.Realloc
    rw [if_neg hcap, if_neg (by omega), if_neg (by omega)]
    rw [hm]
    dsimp only
    rw [hf]
  · intro i hi
    rw [hmem]
    have hi2 : i < min r.len b.len := by omega
    rw [peek_copyBytes a1.mem r.addr b.addr (min r.len b.len) i hi2]
    exact hpres i (by omega)

end Memory

namespace Memory

/-- s1c with the caller having written byte 5 at offset 1 of its slot
(within the capacity 16 of the region returned for Malloc(1)). -/
def s2p : Allocator :=
  { allocs := 1, bytes := 1048576, mmaps := 1, cap := [(4, 65534)], lists := [],
    pages := [(4, 1048576)], heap := [(1048576, ⟨1, 4, 1048576, 1⟩)],
    mem := [(1048609, 5)] }

/-- The state after Malloc(17) on s2p: a fresh class-5 page at 2·2^20. -/
def a1w : Allocator :=
  { allocs := 2, bytes := 2097152, mmaps := 2, cap := [(5, 32767), (4, 65534)],
    lists := [], pages := [(5, 2097152), (4, 1048576)],
    heap := [(2097152, ⟨1, 5, 1048576, 1⟩), (1048576, ⟨1, 4, 1048576, 1⟩)],
    mem := [(1048609, 5)] }

/-- The state after Realloc(b, 17) on s2p: the old class-4 page has been
drained and unmapped, the new class-5 slot carries the single copied byte. -/
def s5r : Allocator :=
  { allocs := 1, bytes := 1048576, mmaps := 1, cap := [(5, 32767), (4, 65534)],
    lists := [(4, [])], pages := [(5, 2097152)],
    heap := [(2097152, ⟨1, 5, 1048576, 1⟩)],
    mem := [(2097184, 0), (1048609, 5)] }

/-- C5 counterexample: grow the region b = ⟨1048608, 1, 16⟩ (length 1,
capacity 16, byte 5 written at offset 1) to 17 bytes.  The claim says
min(size, cap(b)) = 16 bytes are copied, so the new region's byte at offset
1 would have to equal 5; the code copies only min(17, len(b)) = 1 byte and
the new region's byte at offset 1 (inside the claimed copied range, since
1 < min 17 16) is 0. -/
theorem claim_C5_counterexample :
    s2p = s1c.store 1048609 5 ∧
    peek s2p.mem (1048608 + 1) = 5 ∧
    Allocator.Realloc O1 U0 s2p ⟨1048608, 1, 16⟩ 17 =
      some (s5r, ⟨2097184, 17, 32⟩, none) ∧
    (1 : Nat) < min 17 16 ∧
    peek s5r.mem (2097184 + 1) = 0 := by
  exact ⟨by decide, by decide, by decide, by decide, by decide⟩

/-- Witness for claim_C5 at the same concrete run. -/
theorem claim_C5_witness :
    Allocator.Realloc O1 U0 s2p ⟨1048608, 1, 16⟩ 17 =
      some (s5r, ⟨2097184, 17, 32⟩, none) ∧
    peek s5r.mem (2097184 + 0) = peek s2p.mem (1048608 + 0) :=
  ⟨(claim_C5 O1 U0 s2p a1w s5r ⟨1048608, 1, 16⟩ ⟨2097184, 17, 32⟩ 17 none
      (by decide) (by decide) (by decide) (by decide) (by decide)).1,
   (claim_C5 O1 U0 s2p a1w s5r ⟨1048608, 1, 16⟩ ⟨2097184, 17, 32⟩ 17 none
      (by decide) (by decide) (by decide) (by decide) (by decide)).2.2.2 0 (by decide)⟩

end Memory

namespace Memory

/-- Alignment postcondition of the platform mmap (mmap_unix.go) for the next
call, phrased executably: whatever the oracle returns for this registry is a
`pageSize`-aligned base. -/
def oracleAligned (O : MmapOracle) (h : List (Nat × Page)) : Bool :=
  match O h with
  | .ok base => base % pageSize == 0
  | .error _ => true

theorem slot_offset_lt2 {log i : Nat} (hi : i < pageAvail / (1 <<< log)) :
    headerSize + (i <<< log) < pageSize := by
  rw [one_shl] at hi
  rw [Nat.shiftLeft_eq]
  have hd : 0 < 2 ^ log := Nat.pos_pow_of_pos _ (by norm_num)
  have h1 : (i + 1) * 2 ^ log ≤ (pageAvail / 2 ^ log) * 2 ^ log :=
    Nat.mul_le_mul_right _ (by omega)
  have h2 : (pageAvail / 2 ^ log) * 2 ^ log ≤ pageAvail := Nat.div_mul_le_self _ _
  have h3 : (i + 1) * 2 ^ log = i * 2 ^ log + 2 ^ log := by ring
  have hps : headerSize + pageAvail = pageSize := by decide
  omega

theorem shared_log_le {L : Nat} (hb : ¬ maxSlotSize < 1 <<< L) : L ≤ 18 := by
  rw [one_shl] at hb
  by_contra hc
  have h19 : (2:Nat) ^ 19 ≤ 2 ^ L := Nat.pow_le_pow_right (by norm_num) (by omega)
  have hmx : maxSlotSize < 2 ^ 19 := by decide
  omega

theorem capVal_ge_two {L : Nat} (hL : L ≤ 18) : 2 ≤ pageAvail / (1 <<< L) := by
  rw [one_shl, Nat.le_div_iff_mul_le (Nat.pos_pow_of_pos _ (by norm_num))]
  have h1 : (2:Nat) ^ L ≤ 2 ^ 18 := Nat.pow_le_pow_right (by norm_num) hL
  have h2 : (2:Nat) * 2 ^ 18 ≤ pageAvail := by decide
  omega

theorem capOf_val {a : Allocator} (hInv : Inv a) {L : Nat}
    (h0 : a.capOf L ≠ 0) : a.capOf L = pageAvail / (1 <<< L) := by
  unfold Allocator.capOf at h0 ⊢
  cases hlk : alookup a.cap L with
  | none => rw [hlk] at h0; simp at h0
  | some c =>
    have := hInv.2.2.2.2 (L, c) (alookup_mem hlk)
    simpa using this

end Memory

namespace Memory

/-- C8: UsableSize returns 0 for nil; for an address whose owning page header
has class exponent log > 0 it returns 1 << log, and for a solo page (log = 0)
it returns size − headerSize; and for every fresh allocation the result is at
least the requested size. -/
theorem claim_C8 :
    (∀ a : Allocator, UsableSize a none = some 0) ∧
    (∀ (a : Allocator) (x : Nat) (pg : Page),
      alookup a.heap (pageBase x) = some pg → pg.log ≠ 0 →
      UsableSize a (some x) = some (1 <<< pg.log)) ∧
    (∀ (a : Allocator) (x : Nat) (pg : Page),
      alookup a.heap (pageBase x) = some pg → pg.log = 0 →
      UsableSize a (some x) = some (pg.size - headerSize)) ∧
    (∀ (O : MmapOracle) (a a1 : Allocator) (r : Region) (size : Int),
      Inv a → oracleAligned O a.heap = true → 0 < size →
      a.Malloc O size = some (a1, r, none) →
      ∃ u, UsableSize a1 (some r.addr) = some u ∧ size.toNat ≤ u) := by
  refine ⟨fun a => rfl, ?_, ?_, ?_⟩
  · intro a x pg hlk hlog
    unfold UsableSize
    dsimp only
    rw [hlk]
    dsimp only
    rw [if_pos hlog]
  · intro a x pg hlk hlog
    unfold UsableSize
    dsimp only
    rw [hlk]
    dsimp only
    rw [if_neg (by simp [hlog])]
  · intro O a a1 r size hInv hOa hpos hm
    have hszpos : 0 < size.toNat := by omega
    rw [Malloc_pos O a size hpos] at hm
    by_cases hbig : maxSlotSize < 1 <<< mallocLog size.toNat
    · cases hO : O a.heap with
      | error e =>
        rw [malloc1_large_fail O { a with allocs := a.allocs + 1 } size.toNat e hbig hO] at hm
        simp at hm
      | ok base =>
        have hal : base % pageSize = 0 := by
          unfold oracleAligned at hOa
          rw [hO] at hOa
          simpa using hOa
        rw [malloc1_large O { a with allocs := a.allocs + 1 } size.toNat base hbig hO] at hm
        cases hm
        refine ⟨roundup (size.toNat + headerSize) osPageSize - headerSize, ?_, ?_⟩
        · unfold UsableSize
          dsimp only
          have hpb : pageBase (base + headerSize) = base :=
            pageBase_add hal (by decide)
          rw [hpb]
          rw [alookup_aset_self]
          simp
        · have := le_roundup (size.toNat + headerSize) osPageSize
            (by norm_num [osPageSize])
          omega
    · have hL18 : mallocLog size.toNat ≤ 18 := shared_log_le hbig
      have hL4 : 4 ≤ mallocLog size.toNat := mallocLog_ge_four hszpos
      have hLne : mallocLog size.toNat ≠ 0 := by omega
      have hsz_le : size.toNat ≤ 2 ^ mallocLog size.toNat :=
        le_two_pow_mallocLog hszpos
      by_cases hmint : a.listOf (mallocLog size.toNat) = [] ∧
          a.pageOf (mallocLog size.toNat) = none
      · cases hO : O a.heap with
        | error e =>
          rw [malloc1_mint_fail O { a with allocs := a.allocs + 1 } size.toNat e hbig hmint.1 hmint.2 hO] at hm
          simp at hm
        | ok base =>
          have hal : base % pageSize = 0 := by
            unfold oracleAligned at hOa
            rw [hO] at hOa
            simpa using hOa
          have husable : ∀ len : Nat,
              UsableSize { a with
                  mmaps := a.mmaps + 1, allocs := a.allocs + 1,
                  bytes := a.bytes + (len : Int),
                  cap := aset a.cap (mallocLog size.toNat)
                    (pageAvail / (1 <<< mallocLog size.toNat)),
                  pages := aset a.pages (mallocLog size.toNat) base,
                  heap := aset a.heap base
                    ⟨1, mallocLog size.toNat, len, 1⟩,
                  mem := clearRange a.mem base len }
                (some (base + headerSize)) =
              some (1 <<< mallocLog size.toNat) := by
            intro len
            unfold UsableSize
            dsimp only
            have hpb : pageBase (base + headerSize) = base :=
              pageBase_add hal (by decide)
            rw [hpb]
            rw [alookup_aset_self]
            dsimp only
            rw [if_pos hLne]
          by_cases hc0 : a.capOf (mallocLog size.toNat) = 0
          · have hc1 : pageAvail / (1 <<< mallocLog size.toNat) ≠ 1 := by
              have := capVal_ge_two hL18
              omega
            rw [malloc1_mint_fresh O { a with allocs := a.allocs + 1 } size.toNat base hbig hmint.1 hmint.2 hO
              hc0 hc1] at hm
            cases hm
            refine ⟨1 <<< mallocLog size.toNat, ?_, ?_⟩
            · unfold UsableSize
              dsimp only
              have hpb : pageBase (base + headerSize) = base :=
                pageBase_add hal (by decide)
              rw [hpb]
              rw [alookup_aset_self]
              dsimp only
              rw [if_pos hLne]
            · rw [one_shl]
              omega
          · have hceq := capOf_val hInv hc0
            have hc1 : a.capOf (mallocLog size.toNat) ≠ 1 := by
              rw [hceq]
              have := capVal_ge_two hL18
              omega
            rw [malloc1_mint_cached O { a with allocs := a.allocs + 1 } size.toNat base hbig hmint.1 hmint.2 hO
              hc0 hc1] at hm
            cases hm
            refine ⟨1 <<< mallocLog size.toNat, ?_, ?_⟩
            · unfold UsableSize
              dsimp only
              have hpb : pageBase (base + headerSize) = base :=
                pageBase_add hal (by decide)
              rw [hpb]
              rw [alookup_aset_self]
              dsimp only
              rw [if_pos hLne]
            · rw [one_shl]
              omega
      · cases hpg : a.pageOf (mallocLog size.toNat) with
        | some pb =>
          obtain ⟨bp, hbp, h1, h2, h3, h4⟩ :=
            hInv.2.2.2.1 (mallocLog size.toNat, pb) (alookup_mem hpg)
          dsimp only at h1 h2 h3 h4
          have hbpmem : (bp.1, bp.2) ∈ a.heap := by simpa using hbp
          have hlk : alookup a.heap pb = some bp.2 := by
            rw [← h1]
            exact alookup_eq_of_mem hInv.1 hbpmem
          have hcap0 : a.capOf (mallocLog size.toNat) ≠ 0 := by
            omega
          have hceq := capOf_val hInv hcap0
          have hbrk2 : bp.2.brk < pageAvail / (1 <<< mallocLog size.toNat) := by
            rw [← hceq]
            simpa using h4
          rw [malloc1_bump O { a with allocs := a.allocs + 1 } size.toNat pb bp.2 hbig hpg hlk] at hm
          cases hm
          have hpb2 : pageBase (pb + headerSize +
              (bp.2.brk <<< mallocLog size.toNat)) = pb := by
            rw [Nat.add_assoc]
            refine pageBase_add ?_ ?_
            · have := (hInv.2.1 bp hbp).1
              rw [← h1]
              exact this
            · rw [← h2] at hbrk2 ⊢
              exact slot_offset_lt2 hbrk2
          refine ⟨1 <<< mallocLog size.toNat, ?_, ?_⟩
          · unfold UsableSize
            dsimp only
            rw [hpb2]
            simp only [Allocator.capOf]
            by_cases hcc : bp.2.brk + 1 =
                (alookup a.cap (mallocLog size.toNat)).getD 0
            · rw [if_pos hcc, alookup_aset_self]
              dsimp only
              rw [if_pos (by rw [h2]; exact hLne), h2]
            · rw [if_neg hcc, alookup_aset_self]
              dsimp only
              rw [if_pos (by rw [h2]; exact hLne), h2]
          · rw [one_shl]
            omega
        | none =>
          cases hls : a.listOf (mallocLog size.toNat) with
          | nil => exact absurd ⟨hls, hpg⟩ hmint
          | cons n rest =>
            have hn : n ∈ a.listOf (mallocLog size.toNat) := by
              rw [hls]
              exact List.mem_cons_self n rest
            have hentry : ∃ bp ∈ a.heap, bp.2.log = mallocLog size.toNat ∧
                mallocLog size.toNat ≠ 0 ∧ IsSlot bp.1 bp.2 n := by
              unfold Allocator.listOf at hn
              cases hlk : alookup a.lists (mallocLog size.toNat) with
              | none => rw [hlk] at hn; exact absurd hn (List.not_mem_nil n)
              | some lst =>
                rw [hlk] at hn
                simp only [Option.getD_some] at hn
                exact (hInv.2.2.1 (mallocLog size.toNat, lst)
                  (alookup_mem hlk)).2 n hn
            obtain ⟨bp, hbp, hbl, hL0, hslot⟩ := hentry
            have hh := hInv.2.1 bp hbp
            have hpbn : pageBase n = bp.1 :=
              pageBase_slot hh.1 (hh.2 (by rw [hbl]; exact hL0)) hslot
            have hbpmem : (bp.1, bp.2) ∈ a.heap := by simpa using hbp
            have hlk2 : alookup a.heap (pageBase n) = some bp.2 := by
              rw [hpbn]
              exact alookup_eq_of_mem hInv.1 hbpmem
            rw [malloc1_pop O { a with allocs := a.allocs + 1 } size.toNat n rest bp.2 hbig hpg hls hlk2] at hm
            cases hm
            refine ⟨1 <<< mallocLog size.toNat, ?_, ?_⟩
            · unfold UsableSize
              dsimp only
              rw [alookup_aset_self]
              dsimp only
              rw [if_pos (by rw [hbl]; exact hLne), hbl]
            · rw [one_shl]
              omega

end Memory

namespace Memory

/-- The state after Malloc(P/2) on the empty allocator: one solo page. -/
def s3solo : Allocator :=
  { allocs := 1, bytes := 528384, mmaps := 1, cap := [], lists := [],
    pages := [], heap := [(1048576, ⟨0, 0, 528384, 0⟩)], mem := [] }

/-- Witness for claim_C8 at concrete states: nil pointer, a live class-4
slot, a solo page, and a fresh Malloc(3). -/
theorem claim_C8_witness :
    UsableSize s1c none = some 0 ∧
    UsableSize s1c (some 1048608) = some (1 <<< 4) ∧
    UsableSize s3solo (some 1048608) = some (528384 - headerSize) ∧
    (∃ u, UsableSize s1c (some 1048608) = some u ∧ (3 : Int).toNat ≤ u) :=
  ⟨claim_C8.1 s1c,
   claim_C8.2.1 s1c 1048608 ⟨1, 4, 1048576, 1⟩ (by decide) (by decide),
   claim_C8.2.2.1 s3solo 1048608 ⟨0, 0, 528384, 0⟩ (by decide) (by decide),
   claim_C8.2.2.2 O1 Allocator.empty s1c ⟨1048608, 3, 16⟩ 3 (by decide) (by decide)
     (by decide) (by decide)⟩

end Memory
